import Mathlib

/-!
Verification development for the client-success repository.

Shallow embedding of the two logic cores:
* `src/evidence-manager/paramify_client.py` — the Paramify API client
  (duplicate detection, payload construction, bulk creation, retry layer,
  evidence cache).
* `src/control-mapping-updater/update_control_mapping.py` — the CSV
  control-mapping reconciliation pass.

Python strings are modelled by Lean `String` (a wrapper around `List Char`);
Python `dict`s whose values are relevant to the verified logic always hold
strings there, so dictionaries are modelled as association lists of string
pairs with first-match lookup and replace-on-insert, reproducing Python
dict semantics (unique keys, last write wins).
-/

/-! ## Python string primitives -/

/-- Whitespace predicate used by Python `str.strip()` (on the ASCII range the
code manipulates, Python and Lean agree on what is whitespace). -/
def isPySpace (c : Char) : Bool := c.isWhitespace

/-- Python `str.strip()` on the underlying character list: drop whitespace
from the front, then from the back. -/
def pyStripList (cs : List Char) : List Char :=
  ((cs.dropWhile isPySpace).reverse.dropWhile isPySpace).reverse

/-- Python `str.strip()`. -/
def pyStrip (s : String) : String := ⟨pyStripList s.data⟩

/-- Python `str.lower()` (ASCII-faithful). -/
def pyLower (s : String) : String := ⟨s.data.map Char.toLower⟩

/-- Python `s.split('\n')`: split on every newline character, keeping empty
segments. -/
def pySplitNl (s : String) : List String :=
  (s.data.splitOn '\n').map (fun cs => ⟨cs⟩)

/-- Python `'\n'.join(l)`. -/
def pyJoinNl (l : List String) : String :=
  ⟨['\n'].intercalate (l.map String.data)⟩

/-- Lexicographic (code-point) comparison on character lists, the order
Python `sorted` uses on strings. -/
def lexLe : List Char → List Char → Bool
  | [], _ => true
  | _ :: _, [] => false
  | a :: as, b :: bs => if a < b then true else if a = b then lexLe as bs else false

/-- Insert a string into a list at the first position where it compares
below the next element. -/
def insertSorted (le : String → String → Bool) (x : String) : List String → List String
  | [] => [x]
  | y :: ys => if le x y then x :: y :: ys else y :: insertSorted le x ys

/-- Stable insertion sort over strings. -/
def pySort (le : String → String → Bool) : List String → List String
  | [] => []
  | x :: xs => insertSorted le x (pySort le xs)

/-- Python `sorted` on a list of strings: the ascending reordering under the
code-point lexicographic order. -/
def pySorted (l : List String) : List String :=
  pySort (fun a b => lexLe a.data b.data) l

/-! ## Python dictionaries (string-valued) -/

/-- A Python dict with string keys and string values. -/
abbrev Dict := List (String × String)

/-- `d.get(k)` / `d[k]`: first entry with the key (keys are unique in an
actual dict, so first-match is exact). -/
def dictGet (d : Dict) (k : String) : Option String :=
  (d.find? (fun p => p.1 == k)).map (·.2)

/-- `d.get(k, default)`. -/
def dictGetD (d : Dict) (k v : String) : String := (dictGet d k).getD v

/-- `d[k] = v`: overwrite in place if the key exists, else append. -/
def dictSet (d : Dict) (k v : String) : Dict :=
  if d.any (fun p => p.1 == k) then d.map (fun p => if p.1 == k then (k, v) else p)
  else d ++ [(k, v)]

/-- `normalize_keys` (paramify_client.py:622): lowercase and strip every key;
later duplicates overwrite earlier ones as in a Python dict comprehension. -/
def normalize_keys (d : Dict) : Dict :=
  d.foldl (fun acc p => dictSet acc (pyStrip (pyLower p.1)) p.2) []

/-- `key in d and d[key]`: the value under `k` when present and truthy
(a nonempty string). -/
def lookupTruthy (d : Dict) (k : String) : Option String :=
  match dictGet d k with
  | some v => if v == "" then none else some v
  | none => none

/-- `get_reference_id` (paramify_client.py:627): first truthy value among the
keys `referenceid`, `reference_id`, `id`, stringified and stripped. -/
def get_reference_id (d : Dict) : Option String :=
  match lookupTruthy d "referenceid" with
  | some v => some (pyStrip v)
  | none =>
    match lookupTruthy d "reference_id" with
    | some v => some (pyStrip v)
    | none =>
      match lookupTruthy d "id" with
      | some v => some (pyStrip v)
      | none => none

/-- `get_field_value` (paramify_client.py:635): first truthy value among the
given keys. -/
def get_field_value (d : Dict) : List String → Option String
  | [] => none
  | k :: ks =>
    match lookupTruthy d k with
    | some v => some v
    | none => get_field_value d ks

/-! ## Errors raised by the client -/

/-- The two exception kinds a single-item operation can surface
(`ValidationError`, `APIError`). -/
inductive OpError
  | validationError (msg : String)
  | apiError (status : Option Nat)
deriving DecidableEq

/-! ## Duplicate detection -/

/-- The scan of `check_duplicate` (paramify_client.py:563-573) over the
existing records: for each record, first the referenceId comparison (guarded
by both sides being truthy), then the case-insensitive trimmed name
comparison; first hit returns that record. -/
def checkDupLoop (name : String) (rid : Option String) : List Dict → Option Dict
  | [] => none
  | ex :: rest =>
    let ridHit : Bool :=
      match rid, dictGet ex "referenceId" with
      | some r, some er => !(r == "") && !(er == "") && (pyStrip er == r)
      | _, _ => false
    if ridHit then some ex
    else if pyStrip (pyLower (dictGetD ex "name" "")) == name then some ex
    else checkDupLoop name rid rest

/-- `check_duplicate` (paramify_client.py:545) with the existing list
supplied by the caller (as in the bulk loop). -/
def check_duplicate (evidence_data : Dict) (existing_evidence : List Dict) : Option Dict :=
  let normalized := normalize_keys evidence_data
  let name := pyStrip (pyLower (dictGetD normalized "name" ""))
  let rid := get_reference_id normalized
  checkDupLoop name rid existing_evidence

/-! ## Payload construction and single-item operations -/

/-- `_build_evidence_payload` (paramify_client.py:579): only truthy fields are
included; `automated` accepts string forms (booleans are rendered here as the
strings Python would produce). -/
def build_evidence_payload (evidence_data : Dict) : Dict :=
  let normalized := normalize_keys evidence_data
  let payload : Dict := []
  let payload := match get_field_value normalized ["name"] with
    | some n => payload ++ [("name", n)]
    | none => payload
  let payload := match get_reference_id normalized with
    | some r => if r == "" then payload else payload ++ [("referenceId", r)]
    | none => payload
  let payload := match get_field_value normalized ["description"] with
    | some v => payload ++ [("description", v)]
    | none => payload
  let payload := match get_field_value normalized ["instructions"] with
    | some v => payload ++ [("instructions", v)]
    | none => payload
  let payload := match get_field_value normalized ["remarks", "notes"] with
    | some v => payload ++ [("remarks", v)]
    | none => payload
  let payload := match dictGet normalized "automated" with
    | some v =>
      if pyLower v == "true" || pyLower v == "yes" || pyLower v == "1" then
        payload ++ [("automated", "True")]
      else if pyLower v == "false" || pyLower v == "no" || pyLower v == "0" then
        payload ++ [("automated", "False")]
      else payload
    | none => payload
  payload

/-- `create_evidence` (paramify_client.py:290), parameterized by the remote
POST (`_request`): build the payload, fail locally when it has no `name`,
otherwise send it. -/
def create_evidence (post : Dict → Except OpError Dict) (evidence_data : Dict) :
    Except OpError Dict :=
  let payload := build_evidence_payload evidence_data
  if (dictGet payload "name").isSome then post payload
  else .error (.validationError "Evidence record must have a name field")

/-! ## Client state: the evidence cache (C1) -/

/-- The only process-lifetime state of `ParamifyClient`: the optional
evidence cache (`_evidence_cache`, paramify_client.py:136). -/
structure ClientState where
  evidence_cache : Option (List Dict)
deriving DecidableEq

/-- `get_all_evidence` (paramify_client.py:258): read-through; a successful
fetch repopulates the cache. -/
def get_all_evidence_st (fetch : Except OpError (List Dict)) (st : ClientState)
    (use_cache : Bool) : Except OpError (List Dict) × ClientState :=
  match use_cache, st.evidence_cache with
  | true, some cached => (.ok cached, st)
  | _, _ =>
    match fetch with
    | .ok data => (.ok data, { st with evidence_cache := some data })
    | .error e => (.error e, st)

/-- `create_evidence` as a state transition: the method body
(paramify_client.py:290-309) never touches `_evidence_cache`. -/
def create_evidence_st (post : Dict → Except OpError Dict) (st : ClientState)
    (evidence_data : Dict) : Except OpError Dict × ClientState :=
  (create_evidence post evidence_data, st)

/-- `update_evidence` (paramify_client.py:311-326) as a state transition:
builds the payload and PATCHes; `_evidence_cache` is never touched. -/
def update_evidence_st (patch : String → Dict → Except OpError Dict) (st : ClientState)
    (evidence_id : String) (evidence_data : Dict) : Except OpError Dict × ClientState :=
  (patch evidence_id (build_evidence_payload evidence_data), st)

/-- `delete_evidence` (paramify_client.py:328-344): on success the cache is
set to `None`; if the request raises, the assignment is never reached. -/
def delete_evidence_st (del : String → Except OpError Dict) (st : ClientState)
    (evidence_id : String) : Except OpError Bool × ClientState :=
  match del evidence_id with
  | .ok _ => (.ok true, { st with evidence_cache := none })
  | .error e => (.error e, st)

/-! ## Bulk creation (C4, C10) -/

/-- The summary dictionary built by `create_evidence_bulk`
(paramify_client.py:431-439). -/
structure SyncResult where
  total : Nat
  created : Nat
  skipped : Nat
  failed : Nat
  created_items : List Dict
  skipped_items : List (String × Option String)
  failed_items : List (String × OpError)
deriving DecidableEq

/-- One iteration of the bulk loop (paramify_client.py:449-486): duplicate
check (only when the existing list is nonempty), skip / create / fail. -/
def bulkStep (post : Dict → Except OpError Dict) (existing : List Dict)
    (allow_duplicates : Bool) (acc : SyncResult) (evidence_data : Dict) : SyncResult :=
  let name := dictGetD evidence_data "name" "N/A"
  let dup : Option Dict :=
    if existing.isEmpty then none else check_duplicate evidence_data existing
  match dup with
  | some duplicate =>
    if !allow_duplicates then
      { acc with
        skipped := acc.skipped + 1
        skipped_items := acc.skipped_items ++ [(name, dictGet duplicate "id")] }
    else
      match create_evidence post evidence_data with
      | .ok result =>
        { acc with created := acc.created + 1, created_items := acc.created_items ++ [result] }
      | .error e =>
        { acc with failed := acc.failed + 1, failed_items := acc.failed_items ++ [(name, e)] }
  | none =>
    match create_evidence post evidence_data with
    | .ok result =>
      { acc with created := acc.created + 1, created_items := acc.created_items ++ [result] }
    | .error e =>
      { acc with failed := acc.failed + 1, failed_items := acc.failed_items ++ [(name, e)] }

/-- The bulk loop over the items, threading the item index into the remote
POST behaviour (each item may get a different remote answer). -/
def bulkLoop (post : Nat → Dict → Except OpError Dict) (existing : List Dict)
    (allow_duplicates : Bool) (idx : Nat) (acc : SyncResult) : List Dict → SyncResult
  | [] => acc
  | d :: rest =>
    bulkLoop post existing allow_duplicates (idx + 1)
      (bulkStep (post idx) existing allow_duplicates acc d) rest

/-- `create_evidence_bulk` (paramify_client.py:412-488): `fetchExisting`
stands for the `get_all_evidence` call, whose `APIError` is swallowed
(duplicate checking then proceeds with an empty list). -/
def create_evidence_bulk (post : Nat → Dict → Except OpError Dict)
    (evidence_list : List Dict) (check_duplicates : Bool) (allow_duplicates : Bool)
    (fetchExisting : Except OpError (List Dict)) : SyncResult :=
  let init : SyncResult :=
    { total := evidence_list.length, created := 0, skipped := 0, failed := 0
      created_items := [], skipped_items := [], failed_items := [] }
  let existing : List Dict :=
    if check_duplicates then
      match fetchExisting with
      | .ok l => l
      | .error _ => []
    else []
  bulkLoop post existing allow_duplicates 0 init evidence_list

/-! ## Retrying request layer (C3) -/

/-- What one attempt of `requests.request` + `raise_for_status` can do, as
seen by `_request` (paramify_client.py:223-246). -/
inductive CallOutcome (β : Type)
  | success (body : β)
  | httpError (status : Nat)
  | connError
  | timeoutError
  | otherError

/-- The `APIError` recorded for a failed attempt (only the classification
matters here). -/
inductive ReqFailure
  | http (status : Nat)
  | conn
  | timedOut
  | other
deriving DecidableEq

/-- The `last_error` value an attempt outcome produces. -/
def failureOf : CallOutcome β → ReqFailure
  | .success _ => .other
  | .httpError s => .http s
  | .connError => .conn
  | .timeoutError => .timedOut
  | .otherError => .other

/-- Observable behaviour of one `_request` call: its result, how many
attempts were made, and the sleeps performed (in order). -/
structure ReqTrace (β : Type) where
  result : Except ReqFailure β
  attempts : Nat
  delays : List Nat

/-- `time.sleep(self.RETRY_DELAY * (attempt + 1))`, executed only when this
is not the last attempt (paramify_client.py:249-250). -/
def pushDelay (base attempt r : Nat) (delays : List Nat) : List Nat :=
  if r = 0 then delays else delays ++ [base * (attempt + 1)]

/-- The `for attempt in range(MAX_RETRIES)` loop of `_request`
(paramify_client.py:223-252), recursing on the remaining iterations `r`:
success returns, a 4xx response raises immediately, every other failure is
recorded as `last_error` and retried after the sleep; after the loop the
last error is raised. -/
def requestLoop (base : Nat) (outcomes : Nat → CallOutcome β) :
    Nat → Option ReqFailure → List Nat → Nat → ReqTrace β
  | attempt, lastErr, delays, 0 => ⟨.error (lastErr.getD .other), attempt, delays⟩
  | attempt, _, delays, r + 1 =>
    match outcomes attempt with
    | .success b => ⟨.ok b, attempt + 1, delays⟩
    | .httpError s =>
      if 400 ≤ s ∧ s < 500 then ⟨.error (.http s), attempt + 1, delays⟩
      else
        requestLoop base outcomes (attempt + 1) (some (.http s))
          (pushDelay base attempt r delays) r
    | .connError =>
      requestLoop base outcomes (attempt + 1) (some .conn) (pushDelay base attempt r delays) r
    | .timeoutError =>
      requestLoop base outcomes (attempt + 1) (some .timedOut) (pushDelay base attempt r delays) r
    | .otherError =>
      requestLoop base outcomes (attempt + 1) (some .other) (pushDelay base attempt r delays) r

/-- `MAX_RETRIES` (paramify_client.py:114). -/
def MAX_RETRIES : Nat := 3

/-- `RETRY_DELAY` (paramify_client.py:115), the delay base in seconds. -/
def RETRY_DELAY : Nat := 1

/-- `_request` (paramify_client.py:202): run the retry loop from attempt 0
with the configured base delay. -/
def runRequest (base : Nat) (outcomes : Nat → CallOutcome β) : ReqTrace β :=
  requestLoop base outcomes 0 none [] MAX_RETRIES

/-- Attempt outcomes the spec calls retryable: connection errors, timeouts
and 5xx responses. -/
def Retryable (o : CallOutcome β) : Prop :=
  o = .connError ∨ o = .timeoutError ∨ ∃ s, 500 ≤ s ∧ o = .httpError s

/-! ## Control-mapping updater (update_control_mapping.py) -/

/-- `parse_mappings` (update_control_mapping.py:120): split the cell on
newlines, strip each line, keep the non-blank ones, as a set (`dedup`). -/
def parse_mappings (s : String) : List String :=
  if pyStrip s == "" then []
  else (((pySplitNl s).map pyStrip).filter (fun m => !(m == ""))).dedup

/-- Python `str.rstrip(':')`: remove every trailing colon. -/
def pyRstripColon (s : String) : String :=
  ⟨(s.data.reverse.dropWhile (fun c => c == ':')).reverse⟩

/-- `normalize_capability_name` (update_control_mapping.py:127): strip,
remove trailing colons, strip again. -/
def normalize_capability_name (name : String) : String :=
  pyStrip (pyRstripColon (pyStrip name))

/-- The master lookup: a dict from normalized capability name to its set of
mappings (insertion ordered, as a Python dict). -/
abbrev MasterLookup := List (String × List String)

/-- `lookup[k]` on the master lookup. -/
def lookupFind (ml : MasterLookup) (k : String) : Option (List String) :=
  (ml.find? (fun p => p.1 == k)).map (·.2)

/-- Python `set.update` / union: keep the first operand, add the members of
the second not already present. -/
def setUnion (a b : List String) : List String :=
  a ++ b.filter (fun t => decide (t ∉ a))

/-- `lookup[cap_name].update(mappings)`: union into the value stored under
an existing key. -/
def lookupUnion (ml : MasterLookup) (k : String) (v : List String) : MasterLookup :=
  ml.map (fun p => if p.1 == k then (p.1, setUnion p.2 v) else p)

/-- One iteration of `build_master_lookup` (update_control_mapping.py:135-143):
rows long enough to have a capability cell and a nonblank normalized name
contribute their parsed mappings, unioned into an existing key or appended
as a new one. -/
def buildStep (cap_idx mapping_idx : Nat) (lookup : MasterLookup) (row : List String) :
    MasterLookup :=
  if cap_idx < row.length then
    let cap_name := normalize_capability_name (row.getD cap_idx "")
    if cap_name == "" then lookup
    else
      let mappings := parse_mappings (row.getD mapping_idx "")
      if (lookupFind lookup cap_name).isSome then lookupUnion lookup cap_name mappings
      else lookup ++ [(cap_name, mappings)]
  else lookup

/-- `build_master_lookup` (update_control_mapping.py:132). -/
def build_master_lookup (rows : List (List String)) (cap_idx mapping_idx : Nat) :
    MasterLookup :=
  rows.foldl (buildStep cap_idx mapping_idx) []

/-- How the main loop of `update_control_mapping.py` (lines 188-217) leaves
one target row: skipped (too short / blank key), unmatched, already in sync,
or updated with `n` mappings added. -/
inductive RowOutcome
  | tooShort
  | blankKey
  | unmatched (key : String)
  | inSync
  | updated (added : Nat)
deriving DecidableEq

/-- One iteration of the target-row loop (update_control_mapping.py:188-217):
returns the (possibly rewritten) row together with what happened to it. -/
def processRow (ml : MasterLookup) (ci mi : Nat) (row : List String) :
    List String × RowOutcome :=
  if row.length ≤ ci then (row, .tooShort)
  else
    let cap_raw := pyStrip (row.getD ci "")
    if cap_raw == "" then (row, .blankKey)
    else
      let cap := normalize_capability_name cap_raw
      match lookupFind ml cap with
      | none => (row, .unmatched cap)
      | some master =>
        let current := parse_mappings (row.getD mi "")
        let missing := master.filter (fun t => decide (t ∉ current))
        if missing.isEmpty then (row, .inSync)
        else
          let padded := row ++ List.replicate (mi + 1 - row.length) ""
          (padded.set mi (pyJoinNl (pySorted (current ++ missing))), .updated missing.length)

/-- Append a key to the unmatched report unless already present
(update_control_mapping.py:199-200). -/
def insertNew (l : List String) (k : String) : List String :=
  if k ∈ l then l else l ++ [k]

/-- Contribution of a row outcome to `capabilities_updated`. -/
def updDelta : RowOutcome → Nat
  | .updated _ => 1
  | _ => 0

/-- Contribution of a row outcome to `mappings_added`. -/
def addDelta : RowOutcome → Nat
  | .updated n => n
  | _ => 0

/-- The mutable state of the main loop: rows emitted so far (reversed), the
two counters, and the unmatched report. -/
structure ReconState where
  rowsRev : List (List String)
  updated : Nat
  added : Nat
  unmatched : List String
deriving DecidableEq

/-- One step of the main loop acting on the loop state. -/
def stepRow (ml : MasterLookup) (ci mi : Nat) (st : ReconState) (row : List String) :
    ReconState :=
  let pr := processRow ml ci mi row
  { rowsRev := pr.1 :: st.rowsRev
    updated := st.updated + updDelta pr.2
    added := st.added + addDelta pr.2
    unmatched :=
      match pr.2 with
      | .unmatched k => insertNew st.unmatched k
      | _ => st.unmatched }

/-- The outcome of one reconciliation pass. -/
structure ReconResult where
  rows : List (List String)
  updated : Nat
  added : Nat
  unmatched : List String
deriving DecidableEq

/-- The whole reconciliation pass of `main` (update_control_mapping.py:188-217)
over the target rows, given the master lookup and the two column indices. -/
def reconcile (ml : MasterLookup) (ci mi : Nat) (targets : List (List String)) :
    ReconResult :=
  let st := targets.foldl (stepRow ml ci mi) ⟨[], 0, 0, []⟩
  ⟨st.rowsRev.reverse, st.updated, st.added, st.unmatched⟩

/-! ## Per-record match predicates (used to characterize `check_duplicate`) -/

/-- The referenceId comparison `check_duplicate` performs on one existing
record: both sides truthy and the stripped stored id equal to the candidate
id. -/
def ridHitB (rid : Option String) (ex : Dict) : Bool :=
  match rid, dictGet ex "referenceId" with
  | some r, some er => !(r == "") && !(er == "") && (pyStrip er == r)
  | _, _ => false

/-- The case-insensitive trimmed name comparison `check_duplicate` performs
on one existing record. -/
def nameHitB (name : String) (ex : Dict) : Bool :=
  pyStrip (pyLower (dictGetD ex "name" "")) == name

/-- The candidate name as `check_duplicate` normalizes it. -/
def candName (cand : Dict) : String :=
  pyStrip (pyLower (dictGetD (normalize_keys cand) "name" ""))

/-- The candidate reference id as `check_duplicate` extracts it. -/
def candRefId (cand : Dict) : Option String :=
  get_reference_id (normalize_keys cand)

/-! ## Derived notions used to state the reconciliation properties -/

/-- Shape invariant of every tag produced by `parse_mappings`: nonblank,
trim-fixed, and newline-free. -/
def goodTag (t : String) : Prop :=
  t ≠ "" ∧ pyStrip t = t ∧ '\n' ∉ t.data

/-- Every value stored in a master lookup consists of good tags. -/
def goodLookup (ml : MasterLookup) : Prop :=
  ∀ p ∈ ml, ∀ t ∈ p.2, goodTag t

/-- The unmatched key a row contributes, if any. -/
def rowUnmatchedKey (ml : MasterLookup) (ci mi : Nat) (row : List String) : Option String :=
  match (processRow ml ci mi row).2 with
  | .unmatched k => some k
  | _ => none

/-- Keep the first occurrence of each element, in order of first
appearance. -/
def firstOccurrences (ks : List String) : List String :=
  ks.foldl insertNew []

/-- The normalized key of a target row (`cap_name` in the main loop). -/
def capKeyOf (ci : Nat) (row : List String) : String :=
  normalize_capability_name (pyStrip (row.getD ci ""))

/-- The tag set parsed from a row's mappings cell (`current_mappings`). -/
def currentTags (mi : Nat) (row : List String) : List String :=
  parse_mappings (row.getD mi "")

/-- `missing_mappings = master_mappings - current_mappings`. -/
def missingTags (master current : List String) : List String :=
  master.filter (fun t => decide (t ∉ current))

/-- The rewritten row of the update branch: pad to the mappings column, then
overwrite that cell. -/
def updatedRow (mi : Nat) (row : List String) (cell : String) : List String :=
  (row ++ List.replicate (mi + 1 - row.length) "").set mi cell

-- Sanity checks (concrete evaluation of the embedding).
example : check_duplicate [("name", "A")] [[("name", "a ")]] = some [("name", "a ")] := by
  decide

example :
    (runRequest 1 (fun _ => (.httpError 404 : CallOutcome Dict))).attempts = 1 := by
  decide

example :
    (runRequest 1 (fun n => if n < 2 then (.httpError 503 : CallOutcome Dict)
      else .success [])).result = .ok [] := by
  rfl

example :
    (runRequest 1 (fun _ => (.connError : CallOutcome Dict))).delays = [1, 2] := by
  decide

-- The scenario from the spec: master row with trailing colon and two tags,
-- target row with one tag; the pass adds the missing tag, sorted.
example :
    reconcile (build_master_lookup [["Access Control:", "AC-1\nAC-2"]] 0 1) 0 1
      [["Access Control", "AC-1"]] =
    ⟨[["Access Control", "AC-1\nAC-2"]], 1, 1, []⟩ := by
  decide

example :
    lookupFind (build_master_lookup [["AC-1", "X"], ["AC-1", "Y"]] 0 1) "AC-1" =
      some ["X", "Y"] := by
  decide

example :
    (reconcile (build_master_lookup [["K", "A"]] 0 1) 0 1
      [["K", "A"], ["Z", ""], ["Z", "B"], ["", "C"]]).unmatched = ["Z"] := by
  decide

/-! ## Helper lemmas about the duplicate scan -/

theorem checkDupLoop_cons (name : String) (rid : Option String) (ex : Dict) (rest : List Dict) :
    checkDupLoop name rid (ex :: rest) =
      if ridHitB rid ex then some ex
      else if nameHitB name ex then some ex
      else checkDupLoop name rid rest := rfl

theorem checkDupLoop_eq_find (name : String) (rid : Option String) (l : List Dict) :
    checkDupLoop name rid l = l.find? (fun ex => ridHitB rid ex || nameHitB name ex) := by
  induction l with
  | nil => rfl
  | cons ex rest ih =>
    rw [checkDupLoop_cons, List.find?_cons]
    by_cases h1 : ridHitB rid ex
    · simp [h1]
    · by_cases h2 : nameHitB name ex <;> simp [h1, h2, ih]

theorem check_duplicate_eq_find (cand : Dict) (l : List Dict) :
    check_duplicate cand l =
      l.find? (fun ex => ridHitB (candRefId cand) ex || nameHitB (candName cand) ex) := by
  rw [show check_duplicate cand l = checkDupLoop (candName cand) (candRefId cand) l from rfl,
    checkDupLoop_eq_find]

/-! ## C1 — cache invalidation after mutating calls -/

/-- C1 counterexample: a create operation that completes successfully leaves
the evidence cache exactly as it was, so the claim that every completed
mutating operation clears the cache is false for `create_evidence`. -/
theorem c1_create_keeps_cache :
    (∃ d, (create_evidence_st (fun p => .ok p) ⟨some [[("name", "old")]]⟩ [("name", "x")]).1
      = .ok d) ∧
    (create_evidence_st (fun p => .ok p) ⟨some [[("name", "old")]]⟩
      [("name", "x")]).2.evidence_cache = some [[("name", "old")]] :=
  ⟨⟨[("name", "x")], rfl⟩, rfl⟩

/-- C1 amended: only `delete_evidence` invalidates the cache, and only when
the DELETE request succeeds; `create_evidence` and `update_evidence` leave
the client state untouched. -/
theorem c1_only_delete_invalidates (post : Dict → Except OpError Dict)
    (patch : String → Dict → Except OpError Dict) (del : String → Except OpError Dict)
    (st : ClientState) (d : Dict) (eid : String) :
    (create_evidence_st post st d).2 = st ∧
    (update_evidence_st patch st eid d).2 = st ∧
    ((∃ v, del eid = .ok v) → (delete_evidence_st del st eid).2.evidence_cache = none) ∧
    (∀ e, del eid = .error e → (delete_evidence_st del st eid).2 = st) := by
  refine ⟨rfl, rfl, ?_, ?_⟩
  · rintro ⟨v, hv⟩
    simp [delete_evidence_st, hv]
  · intro e he
    simp [delete_evidence_st, he]

/-- Witness for `c1_only_delete_invalidates` at concrete inputs. -/
theorem c1_only_delete_invalidates_witness :
    (∃ v, (fun _ : String => (.ok [] : Except OpError Dict)) "e1" = .ok v) ∧
    (delete_evidence_st (fun _ => .ok []) ⟨some [[("name", "old")]]⟩
      "e1").2.evidence_cache = none :=
  ⟨⟨[], rfl⟩,
    (c1_only_delete_invalidates (fun p => .ok p) (fun _ p => .ok p) (fun _ => .ok [])
      ⟨some [[("name", "old")]]⟩ [] "e1").2.2.1 ⟨[], rfl⟩⟩

/-! ## C2 — order of the duplicate checks -/

/-- C2 counterexample: the candidate carries referenceId `R`; the second
existing record has referenceId `R`, yet the scan returns the first record
because its name matches — so a name fallback happens even though a
referenceId match exists later in the list, contradicting the claimed
two-phase order. -/
theorem c2_name_match_preempts_later_rid_match :
    check_duplicate [("name", "N"), ("referenceid", "R")]
        [[("referenceId", "X"), ("name", " n ")], [("referenceId", "R"), ("name", "other")]]
      = some [("referenceId", "X"), ("name", " n ")] ∧
    candRefId [("name", "N"), ("referenceid", "R")] = some "R" ∧
    ridHitB (some "R") [("referenceId", "R"), ("name", "other")] = true ∧
    check_duplicate [("name", "N"), ("referenceid", "R")]
        [[("referenceId", "X"), ("name", " n ")], [("referenceId", "R"), ("name", "other")]]
      ≠ some [("referenceId", "R"), ("name", "other")] := by
  refine ⟨by decide, by decide, by decide, by decide⟩

/-- C2 amended: the two comparisons are interleaved per record, not phased
over the whole list — `check_duplicate` returns the first record of the
existing list (in list order) that matches the candidate either by
normalized referenceId or by case-insensitive trimmed name. -/
theorem c2_first_record_matching_either_wins (cand : Dict) (l : List Dict) :
    check_duplicate cand l =
      l.find? (fun ex => ridHitB (candRefId cand) ex || nameHitB (candName cand) ex) :=
  check_duplicate_eq_find cand l

/-! ## C9 — missing name fails locally, nothing is sent -/

/-- C9: when the constructed payload has no `name` field, `create_evidence`
fails with the local `ValidationError` uniformly in the remote behaviour
`post` — the remote is never consulted (hence nothing is sent and nothing is
retried). -/
theorem c9_missing_name_is_local_validation_error (evidence_data : Dict)
    (h : dictGet (build_evidence_payload evidence_data) "name" = none) :
    ∀ post : Dict → Except OpError Dict,
      create_evidence post evidence_data =
        .error (.validationError "Evidence record must have a name field") := by
  intro post
  simp [create_evidence, h]

/-- Witness for `c9_missing_name_is_local_validation_error`: a record with
only a description has no name in its payload and is rejected locally. -/
theorem c9_missing_name_witness :
    dictGet (build_evidence_payload [("description", "d")]) "name" = none ∧
    create_evidence (fun p => .ok p) [("description", "d")] =
      .error (.validationError "Evidence record must have a name field") :=
  ⟨by decide, c9_missing_name_is_local_validation_error [("description", "d")] (by decide) _⟩

/-! ## C4 — batch accounting -/

theorem bulkStep_fields (p : Dict → Except OpError Dict) (e : List Dict) (a : Bool)
    (acc : SyncResult) (d : Dict) :
    (bulkStep p e a acc d).total = acc.total ∧
    (bulkStep p e a acc d).created + (bulkStep p e a acc d).skipped +
        (bulkStep p e a acc d).failed =
      acc.created + acc.skipped + acc.failed + 1 ∧
    (bulkStep p e a acc d).created_items.length +
        (bulkStep p e a acc d).skipped_items.length +
        (bulkStep p e a acc d).failed_items.length =
      acc.created_items.length + acc.skipped_items.length + acc.failed_items.length + 1 ∧
    ((bulkStep p e a acc d).created_items.length = acc.created_items.length ↔
      (bulkStep p e a acc d).created = acc.created) ∧
    ((bulkStep p e a acc d).skipped_items.length = acc.skipped_items.length ↔
      (bulkStep p e a acc d).skipped = acc.skipped) ∧
    ((bulkStep p e a acc d).failed_items.length = acc.failed_items.length ↔
      (bulkStep p e a acc d).failed = acc.failed) := by
  unfold bulkStep
  dsimp only
  generalize (if e.isEmpty then none else check_duplicate d e) = dup
  rcases dup with _ | dup <;>
    rcases hc : create_evidence p d with err | v <;>
    cases a <;>
    (refine ⟨?_, ?_, ?_, ?_, ?_, ?_⟩ <;> simp [hc] <;> omega)

theorem bulkLoop_fields (post : Nat → Dict → Except OpError Dict) (e : List Dict) (a : Bool) :
    ∀ (l : List Dict) (idx : Nat) (acc : SyncResult),
      (bulkLoop post e a idx acc l).total = acc.total ∧
      (bulkLoop post e a idx acc l).created + (bulkLoop post e a idx acc l).skipped +
          (bulkLoop post e a idx acc l).failed =
        acc.created + acc.skipped + acc.failed + l.length := by
  intro l
  induction l with
  | nil => intro idx acc; exact ⟨rfl, rfl⟩
  | cons d rest ih =>
    intro idx acc
    have hs := bulkStep_fields (post idx) e a acc d
    have hr := ih (idx + 1) (bulkStep (post idx) e a acc d)
    refine ⟨hr.1.trans hs.1, ?_⟩
    rw [show bulkLoop post e a idx acc (d :: rest)
        = bulkLoop post e a (idx + 1) (bulkStep (post idx) e a acc d) rest from rfl]
    rw [hr.2, hs.2.1]
    simp [List.length_cons]
    omega

/-- C4: for every input list (including the empty one) and every remote
behaviour, the bulk result satisfies `total = len(items)` and
`created + skipped + failed = total`; since the counters account for every
item exactly once, a failing item never aborts the processing of the rest. -/
theorem c4_batch_accounting (post : Nat → Dict → Except OpError Dict)
    (evidence_list : List Dict) (check_duplicates allow_duplicates : Bool)
    (fetchExisting : Except OpError (List Dict)) :
    (create_evidence_bulk post evidence_list check_duplicates allow_duplicates
      fetchExisting).total = evidence_list.length ∧
    (create_evidence_bulk post evidence_list check_duplicates allow_duplicates
          fetchExisting).created +
        (create_evidence_bulk post evidence_list check_duplicates allow_duplicates
          fetchExisting).skipped +
        (create_evidence_bulk post evidence_list check_duplicates allow_duplicates
          fetchExisting).failed =
      (create_evidence_bulk post evidence_list check_duplicates allow_duplicates
        fetchExisting).total := by
  unfold create_evidence_bulk
  have h := bulkLoop_fields post
    (if check_duplicates then
      match fetchExisting with
      | .ok l => l
      | .error _ => []
    else []) allow_duplicates evidence_list 0
    { total := evidence_list.length, created := 0, skipped := 0, failed := 0
      created_items := [], skipped_items := [], failed_items := [] }
  refine ⟨h.1, ?_⟩
  rw [h.2, h.1]
  simp

/-! ## C10 — nameless candidates in duplicate detection -/

/-- C10 counterexample: a nameless candidate that carries an id-like field is
matched by referenceId against the first record, so the scan does not return
the first existing record whose name is missing or blank (here the second
one). -/
theorem c10_rid_match_preempts_blank_name :
    candName [("id", "R")] = "" ∧
    nameHitB "" [("name", "")] = true ∧
    nameHitB "" [("referenceId", "R"), ("name", "Foo")] = false ∧
    check_duplicate [("id", "R")] [[("referenceId", "R"), ("name", "Foo")], [("name", "")]]
      = some [("referenceId", "R"), ("name", "Foo")] ∧
    check_duplicate [("id", "R")] [[("referenceId", "R"), ("name", "Foo")], [("name", "")]]
      ≠ some [("name", "")] := by
  refine ⟨by decide, by decide, by decide, by decide, by decide⟩

theorem checkDupLoop_isSome_of_blank (rid : Option String) (l : List Dict) (ex : Dict)
    (hex : ex ∈ l) (hblank : nameHitB "" ex = true) :
    (checkDupLoop "" rid l).isSome = true := by
  induction l with
  | nil => cases hex
  | cons y ys ih =>
    rw [checkDupLoop_cons]
    by_cases h1 : ridHitB rid y
    · simp [h1]
    · by_cases h2 : nameHitB "" y
      · simp [h1, h2]
      · rcases List.mem_cons.mp hex with rfl | hmem
        · exact absurd hblank (by simpa using h2)
        · simpa [h1, h2] using ih hmem

/-- C10 amended: when the candidate has no (or a blank) name and additionally
no truthy id-like field, `check_duplicate` returns the first existing record
whose name is missing or blank; and — whether or not the candidate carries an
id-like field — in a bulk run with duplicate checking enabled, a nameless
candidate is skipped (never failed) as soon as any existing record has a
missing-or-blank name, though the record it is matched with may then be an
earlier referenceId match rather than the first blank-named one. -/
theorem c10_nameless_matches_first_blank_name (cand : Dict) (l existing : List Dict)
    (ex : Dict) (post : Nat → Dict → Except OpError Dict)
    (hname : candName cand = "")
    (hmem : ex ∈ existing) (hblank : nameHitB "" ex = true) :
    ((∀ r, candRefId cand = some r → r = "") →
      check_duplicate cand l = l.find? (fun e2 => nameHitB "" e2)) ∧
    (create_evidence_bulk post [cand] true false (.ok existing)).skipped = 1 ∧
    (create_evidence_bulk post [cand] true false (.ok existing)).created = 0 ∧
    (create_evidence_bulk post [cand] true false (.ok existing)).failed = 0 := by
  constructor
  · intro hrid
    have hridB : ∀ e2 : Dict, ridHitB (candRefId cand) e2 = false := by
      intro e2
      rcases hr : candRefId cand with _ | r
      · cases hdg : dictGet e2 "referenceId" <;> simp [ridHitB, hdg]
      · have : r = "" := hrid r hr
        subst this
        cases hdg : dictGet e2 "referenceId" <;> simp [ridHitB, hdg]
    rw [check_duplicate_eq_find, hname]
    congr 1
    funext e2
    rw [hridB e2, Bool.false_or]
  · have hne : existing.isEmpty = false := by
      cases existing
      · cases hmem
      · rfl
    have hsome : (check_duplicate cand existing).isSome = true := by
      rw [show check_duplicate cand existing
          = checkDupLoop (candName cand) (candRefId cand) existing from rfl, hname]
      exact checkDupLoop_isSome_of_blank _ existing ex hmem hblank
    rcases Option.isSome_iff_exists.mp hsome with ⟨dup, hdup⟩
    refine ⟨?_, ?_, ?_⟩ <;>
      simp [create_evidence_bulk, bulkLoop, bulkStep, hne, hdup]

/-- Witness for `c10_nameless_matches_first_blank_name` at concrete inputs: one
nameless candidate without any id-like field (exercising the first-blank-name
characterization), and one nameless candidate carrying an id-like field
(exercising the unconditional bulk skip). -/
theorem c10_nameless_witness :
    candName [("description", "d")] = "" ∧
    nameHitB "" [("name", " ")] = true ∧
    check_duplicate [("description", "d")] [[("name", "x")], [("name", " ")]]
      = [[("name", "x")], [("name", " ")]].find? (fun e2 => nameHitB "" e2) ∧
    (create_evidence_bulk (fun _ p => .ok p) [[("description", "d")]] true false
      (.ok [[("name", "x")], [("name", " ")]])).skipped = 1 ∧
    candName [("id", "R")] = "" ∧
    (create_evidence_bulk (fun _ p => .ok p) [[("id", "R")]] true false
      (.ok [[("referenceId", "R"), ("name", "Foo")], [("name", " ")]])).skipped = 1 ∧
    (create_evidence_bulk (fun _ p => .ok p) [[("id", "R")]] true false
      (.ok [[("referenceId", "R"), ("name", "Foo")], [("name", " ")]])).failed = 0 := by
  have h := c10_nameless_matches_first_blank_name [("description", "d")]
    [[("name", "x")], [("name", " ")]] [[("name", "x")], [("name", " ")]]
    [("name", " ")] (fun _ p => .ok p) (by decide) (by decide) (by decide)
  have h2 := c10_nameless_matches_first_blank_name [("id", "R")] []
    [[("referenceId", "R"), ("name", "Foo")], [("name", " ")]]
    [("name", " ")] (fun _ p => .ok p) (by decide) (by decide) (by decide)
  refine ⟨by decide, by decide, ?_, h.2.1, by decide, h2.2.1, h2.2.2.2⟩
  exact h.1 (by
    intro r hr
    rw [show candRefId [("description", "d")] = none from by decide] at hr
    cases hr)

/-! ## C3 — the retry policy -/

theorem requestLoop_zero (base : Nat) (outs : Nat → CallOutcome β) (attempt : Nat)
    (le : Option ReqFailure) (ds : List Nat) :
    requestLoop base outs attempt le ds 0 = ⟨.error (le.getD .other), attempt, ds⟩ := rfl

theorem requestLoop_succ_success (base : Nat) (outs : Nat → CallOutcome β)
    (attempt r : Nat) (le : Option ReqFailure) (ds : List Nat) (b : β)
    (h : outs attempt = .success b) :
    requestLoop base outs attempt le ds (r + 1) = ⟨.ok b, attempt + 1, ds⟩ := by
  simp only [requestLoop, h]

theorem requestLoop_succ_4xx (base : Nat) (outs : Nat → CallOutcome β)
    (attempt r : Nat) (le : Option ReqFailure) (ds : List Nat) (s : Nat)
    (h : outs attempt = .httpError s) (h4 : 400 ≤ s) (h5 : s < 500) :
    requestLoop base outs attempt le ds (r + 1) = ⟨.error (.http s), attempt + 1, ds⟩ := by
  simp only [requestLoop, h]
  rw [if_pos ⟨h4, h5⟩]

theorem requestLoop_retryable_step (base : Nat) (outs : Nat → CallOutcome β)
    (attempt r : Nat) (le : Option ReqFailure) (ds : List Nat)
    (h : Retryable (outs attempt)) :
    requestLoop base outs attempt le ds (r + 1) =
      requestLoop base outs (attempt + 1) (some (failureOf (outs attempt)))
        (pushDelay base attempt r ds) r := by
  rcases h with h | h | ⟨s, hs, h⟩
  · simp only [requestLoop, h, failureOf]
  · simp only [requestLoop, h, failureOf]
  · simp only [requestLoop, h, failureOf]
    rw [if_neg (by omega)]

/-- C3: the retry policy of `_request`. A first-attempt 4xx answer gives
exactly one attempt, no sleeps, and the error surfaced immediately; three
retryable outcomes (connection error, timeout, 5xx) exhaust the 3-attempt
budget with sleeps `base * 1`, `base * 2` and surface the last observed
error; a 404 answer is attempted exactly once; 503, 503 then 200 succeeds on
the third attempt. -/
theorem c3_retry_policy (base : Nat) (body : Dict) (s : Nat)
    (h4 : 400 ≤ s) (h5 : s < 500) (f : Nat → CallOutcome Dict)
    (hf : ∀ n, Retryable (f n)) :
    ((runRequest base (fun _ => CallOutcome.httpError s) : ReqTrace Dict).attempts = 1 ∧
      (runRequest base (fun _ => CallOutcome.httpError s) : ReqTrace Dict).result
        = .error (.http s) ∧
      (runRequest base (fun _ => CallOutcome.httpError s) : ReqTrace Dict).delays = []) ∧
    ((runRequest base f).attempts = 3 ∧
      (runRequest base f).delays = [base * 1, base * 2] ∧
      (runRequest base f).result = .error (failureOf (f 2))) ∧
    ((runRequest base (fun _ => CallOutcome.httpError 404) : ReqTrace Dict).attempts = 1) ∧
    ((runRequest base (fun n => if n < 2 then CallOutcome.httpError 503
        else CallOutcome.success body) : ReqTrace Dict).attempts = 3 ∧
      (runRequest base (fun n => if n < 2 then CallOutcome.httpError 503
        else CallOutcome.success body) : ReqTrace Dict).result = .ok body) := by
  have h4xx : (runRequest base (fun _ => CallOutcome.httpError s) : ReqTrace Dict)
      = ⟨.error (.http s), 1, []⟩ := by
    calc runRequest base (fun _ => CallOutcome.httpError s)
        = requestLoop base (fun _ => CallOutcome.httpError s) 0 none [] (2 + 1) := rfl
      _ = ⟨.error (.http s), 1, []⟩ :=
        requestLoop_succ_4xx base _ 0 2 none [] s rfl h4 h5
  have hexh : runRequest base f = ⟨.error (failureOf (f 2)), 3, [base * 1, base * 2]⟩ := by
    calc runRequest base f
        = requestLoop base f 0 none [] (2 + 1) := rfl
      _ = requestLoop base f 1 (some (failureOf (f 0))) (pushDelay base 0 2 []) (1 + 1) :=
        requestLoop_retryable_step base f 0 2 none [] (hf 0)
      _ = requestLoop base f 2 (some (failureOf (f 1)))
            (pushDelay base 1 1 (pushDelay base 0 2 [])) (0 + 1) :=
        requestLoop_retryable_step base f 1 1 _ _ (hf 1)
      _ = requestLoop base f 3 (some (failureOf (f 2)))
            (pushDelay base 2 0 (pushDelay base 1 1 (pushDelay base 0 2 []))) 0 :=
        requestLoop_retryable_step base f 2 0 _ _ (hf 2)
      _ = ⟨.error (failureOf (f 2)), 3, [base * 1, base * 2]⟩ := rfl
  have h404 : (runRequest base (fun _ => CallOutcome.httpError 404) : ReqTrace Dict)
      = ⟨.error (.http 404), 1, []⟩ := by
    calc runRequest base (fun _ => CallOutcome.httpError 404)
        = requestLoop base (fun _ => CallOutcome.httpError 404) 0 none [] (2 + 1) := rfl
      _ = ⟨.error (.http 404), 1, []⟩ :=
        requestLoop_succ_4xx base _ 0 2 none [] 404 rfl (by omega) (by omega)
  have h503 : (runRequest base (fun n => if n < 2 then CallOutcome.httpError 503
      else CallOutcome.success body))
      = ⟨.ok body, 3, [base * 1, base * 2]⟩ := by
    have hr0 : Retryable ((fun n => if n < 2 then CallOutcome.httpError 503
        else CallOutcome.success body) 0) := Or.inr (Or.inr ⟨503, by omega, rfl⟩)
    have hr1 : Retryable ((fun n => if n < 2 then CallOutcome.httpError 503
        else CallOutcome.success body) 1) := Or.inr (Or.inr ⟨503, by omega, rfl⟩)
    calc runRequest base (fun n => if n < 2 then CallOutcome.httpError 503
          else CallOutcome.success body)
        = requestLoop base (fun n => if n < 2 then CallOutcome.httpError 503
            else CallOutcome.success body) 0 none [] (2 + 1) := rfl
      _ = requestLoop base (fun n => if n < 2 then CallOutcome.httpError 503
            else CallOutcome.success body) 1 (some (failureOf (CallOutcome.httpError 503)))
            (pushDelay base 0 2 []) (1 + 1) :=
        requestLoop_retryable_step base _ 0 2 none [] hr0
      _ = requestLoop base (fun n => if n < 2 then CallOutcome.httpError 503
            else CallOutcome.success body) 2 (some (failureOf (CallOutcome.httpError 503)))
            (pushDelay base 1 1 (pushDelay base 0 2 [])) (0 + 1) :=
        requestLoop_retryable_step base _ 1 1 _ _ hr1
      _ = ⟨.ok body, 3, [base * 1, base * 2]⟩ :=
        requestLoop_succ_success base _ 2 0 _ _ body rfl
  refine ⟨⟨?_, ?_, ?_⟩, ⟨?_, ?_, ?_⟩, ?_, ⟨?_, ?_⟩⟩ <;>
    simp [h4xx, hexh, h404, h503]

/-- Witness for `c3_retry_policy` at concrete inputs (status 404, base 1,
connection errors on every attempt). -/
theorem c3_retry_policy_witness :
    (runRequest 1 (fun _ => CallOutcome.httpError 404) : ReqTrace Dict).attempts = 1 ∧
    (runRequest 1 (fun _ => (CallOutcome.connError : CallOutcome Dict))).attempts = 3 ∧
    (runRequest 1 (fun n => if n < 2 then CallOutcome.httpError 503
      else CallOutcome.success ([] : Dict))).result = .ok [] := by
  have h := c3_retry_policy 1 [] 404 (by omega) (by omega)
    (fun _ => CallOutcome.connError) (fun _ => Or.inl rfl)
  exact ⟨h.1.1, h.2.1.1, h.2.2.2.2⟩

/-! ## String-primitive lemmas for the reconciliation proofs -/

theorem dropWhile_dropWhile (p : α → Bool) (l : List α) :
    (l.dropWhile p).dropWhile p = l.dropWhile p := by
  induction l with
  | nil => rfl
  | cons a l ih =>
    by_cases h : p a
    · simp [List.dropWhile_cons, h, ih]
    · simp [List.dropWhile_cons, h]

theorem dropWhile_eq_self_of_prefix {p : α → Bool} {m m' : List α}
    (hm : m.dropWhile p = m) (hp : m' <+: m) : m'.dropWhile p = m' := by
  cases m' with
  | nil => rfl
  | cons a t =>
    rcases hp with ⟨rest, rfl⟩
    by_cases h : p a
    · exfalso
      rw [List.cons_append] at hm
      have hlen := congrArg List.length hm
      rw [List.dropWhile_cons_of_pos h] at hlen
      have hle := (List.dropWhile_suffix (l := t ++ rest) p).length_le
      simp only [List.length_cons] at hlen
      omega
    · simp [List.dropWhile_cons_of_neg h]

theorem backStrip_isPrefixOf (p : Char → Bool) (m : List Char) :
    (m.reverse.dropWhile p).reverse <+: m := by
  have h := List.dropWhile_suffix (l := m.reverse) p
  rw [show m = m.reverse.reverse by simp]
  exact (List.reverse_prefix).mpr (by simpa using h)

theorem backStrip_idem (p : Char → Bool) (m : List Char) :
    ((m.reverse.dropWhile p).reverse.reverse.dropWhile p).reverse
      = (m.reverse.dropWhile p).reverse := by
  rw [List.reverse_reverse, dropWhile_dropWhile]

theorem pyStripList_idem (cs : List Char) :
    pyStripList (pyStripList cs) = pyStripList cs := by
  unfold pyStripList
  have h2 : ((cs.dropWhile isPySpace).reverse.dropWhile isPySpace).reverse.dropWhile isPySpace
      = ((cs.dropWhile isPySpace).reverse.dropWhile isPySpace).reverse :=
    dropWhile_eq_self_of_prefix (dropWhile_dropWhile isPySpace cs)
      (backStrip_isPrefixOf isPySpace (cs.dropWhile isPySpace))
  rw [h2]
  exact backStrip_idem isPySpace (cs.dropWhile isPySpace)

theorem mem_pyStripList {c : Char} {cs : List Char} (h : c ∈ pyStripList cs) : c ∈ cs := by
  unfold pyStripList at h
  exact (List.dropWhile_suffix isPySpace).subset
    ((backStrip_isPrefixOf isPySpace (cs.dropWhile isPySpace)).subset h)

theorem pyStripList_eq_nil_iff (cs : List Char) :
    pyStripList cs = [] ↔ ∀ c ∈ cs, isPySpace c := by
  unfold pyStripList
  constructor
  · intro h
    have h1 : (cs.dropWhile isPySpace).reverse.dropWhile isPySpace = [] := by
      simpa using congrArg List.reverse h
    have h2 : ∀ c ∈ cs.dropWhile isPySpace, isPySpace c := by
      intro c hc
      exact List.dropWhile_eq_nil_iff.mp h1 c (by simpa using hc)
    intro c hc
    rw [← List.takeWhile_append_dropWhile (p := isPySpace) (l := cs)] at hc
    rcases List.mem_append.mp hc with hc | hc
    · exact List.mem_takeWhile_imp hc
    · exact h2 c hc
  · intro h
    have h1 : cs.dropWhile isPySpace = [] :=
      List.dropWhile_eq_nil_iff.mpr h
    rw [h1]
    rfl

theorem splitOnP_parts (p : α → Bool) (cs : List α) :
    ∀ part ∈ cs.splitOnP p, (∀ c ∈ part, p c = false) ∧ (∀ c ∈ part, c ∈ cs) := by
  induction cs with
  | nil =>
    intro part hp
    rw [List.splitOnP_nil] at hp
    rcases List.mem_singleton.mp hp with rfl
    exact ⟨by simp, by simp⟩
  | cons a cs ih =>
    intro part hp
    rw [List.splitOnP_cons] at hp
    by_cases h : p a
    · rw [if_pos h] at hp
      rcases List.mem_cons.mp hp with rfl | hmem
      · exact ⟨by simp, by simp⟩
      · obtain ⟨h1, h2⟩ := ih part hmem
        exact ⟨h1, fun c hc => List.mem_cons_of_mem a (h2 c hc)⟩
    · rw [if_neg h] at hp
      cases hsp : cs.splitOnP p with
      | nil => exact absurd hsp (List.splitOnP_ne_nil p cs)
      | cons hd tl =>
        rw [hsp, List.modifyHead_cons] at hp
        rcases List.mem_cons.mp hp with rfl | hmem
        · have hhd := ih hd (by rw [hsp]; exact List.mem_cons_self _ _)
          constructor
          · intro c hc
            rcases List.mem_cons.mp hc with rfl | hc'
            · simpa using h
            · exact hhd.1 c hc'
          · intro c hc
            rcases List.mem_cons.mp hc with rfl | hc'
            · exact List.mem_cons_self _ _
            · exact List.mem_cons_of_mem a (hhd.2 c hc')
        · obtain ⟨h1, h2⟩ := ih part (by rw [hsp]; exact List.mem_cons_of_mem hd hmem)
          exact ⟨h1, fun c hc => List.mem_cons_of_mem a (h2 c hc)⟩

theorem splitOn_parts (x : Char) (cs : List Char) :
    ∀ part ∈ cs.splitOn x, x ∉ part ∧ ∀ c ∈ part, c ∈ cs := by
  intro part hp
  have h := splitOnP_parts (· == x) cs part hp
  refine ⟨fun hx => ?_, h.2⟩
  have := h.1 x hx
  simp at this

theorem data_pyStrip (s : String) : (pyStrip s).data = pyStripList s.data := rfl

theorem pyStrip_idem (s : String) : pyStrip (pyStrip s) = pyStrip s := by
  show (⟨pyStripList (pyStripList s.data)⟩ : String) = ⟨pyStripList s.data⟩
  rw [pyStripList_idem]

theorem string_eq_empty_iff (s : String) : s = "" ↔ s.data = [] := by
  cases s
  simp [String.ext_iff]

theorem parse_mappings_good (s : String) : ∀ t ∈ parse_mappings s, goodTag t := by
  intro t ht
  unfold parse_mappings at ht
  by_cases hg : pyStrip s == ""
  · rw [if_pos hg] at ht
    cases ht
  · rw [if_neg hg] at ht
    rw [List.mem_dedup, List.mem_filter] at ht
    obtain ⟨hmap, hne⟩ := ht
    rw [List.mem_map] at hmap
    obtain ⟨seg, hseg, rfl⟩ := hmap
    refine ⟨by simpa using hne, pyStrip_idem seg, ?_⟩
    unfold pySplitNl at hseg
    rw [List.mem_map] at hseg
    obtain ⟨part, hpart, rfl⟩ := hseg
    intro hc
    rw [data_pyStrip] at hc
    exact (splitOn_parts '\n' s.data part hpart).1 (mem_pyStripList hc)

theorem pySplitNl_pyJoinNl (l : List String) (hnl : ∀ t ∈ l, '\n' ∉ t.data)
    (hne : l ≠ []) : pySplitNl (pyJoinNl l) = l := by
  unfold pySplitNl pyJoinNl
  rw [show (⟨['\n'].intercalate (l.map String.data)⟩ : String).data
      = ['\n'].intercalate (l.map String.data) from rfl]
  rw [List.splitOn_intercalate (l.map String.data) '\n'
    (by intro part hp; rw [List.mem_map] at hp; obtain ⟨t, ht, rfl⟩ := hp; exact hnl t ht)
    (by simpa using hne)]
  rw [List.map_map]
  have hid : ((fun cs => (⟨cs⟩ : String)) ∘ String.data) = id := funext fun s => rfl
  rw [hid, List.map_id]

theorem insertSorted_perm (le : String → String → Bool) (x : String) (l : List String) :
    List.Perm (insertSorted le x l) (x :: l) := by
  induction l with
  | nil => exact List.Perm.refl _
  | cons y ys ih =>
    unfold insertSorted
    by_cases h : le x y
    · rw [if_pos h]
    · rw [if_neg h]
      exact (List.Perm.cons y ih).trans (List.Perm.swap x y ys)

theorem pySort_perm (le : String → String → Bool) (l : List String) :
    List.Perm (pySort le l) l := by
  induction l with
  | nil => exact List.Perm.refl _
  | cons x xs ih => exact (insertSorted_perm le x (pySort le xs)).trans (List.Perm.cons x ih)

theorem mem_pySorted (t : String) (l : List String) : t ∈ pySorted l ↔ t ∈ l :=
  (pySort_perm _ l).mem_iff

theorem pySorted_ne_nil {l : List String} (h : l ≠ []) : pySorted l ≠ [] := by
  intro hc
  apply h
  have hlen := (pySort_perm (fun a b => lexLe a.data b.data) l).length_eq
  rw [show pySorted l = pySort (fun a b => lexLe a.data b.data) l from rfl] at hc
  rw [hc] at hlen
  exact List.length_eq_zero.mp hlen.symm

theorem parse_pyJoinNl (l : List String) (hne : l ≠ []) (hg : ∀ t ∈ l, goodTag t) :
    parse_mappings (pyJoinNl l) = l.dedup := by
  have hsplit : pySplitNl (pyJoinNl l) = l :=
    pySplitNl_pyJoinNl l (fun t ht => (hg t ht).2.2) hne
  have hguard : (pyStrip (pyJoinNl l) == "") = false := by
    rw [beq_eq_false_iff_ne]
    intro heq
    have hdata : pyStripList (pyJoinNl l).data = [] := by
      rw [← data_pyStrip, heq]
    have hallws : ∀ c ∈ (pyJoinNl l).data, isPySpace c :=
      (pyStripList_eq_nil_iff _).mp hdata
    obtain ⟨t, ht⟩ := List.exists_mem_of_ne_nil l hne
    have hgt := hg t ht
    have htin : t ∈ pySplitNl (pyJoinNl l) := by rw [hsplit]; exact ht
    unfold pySplitNl at htin
    rw [List.mem_map] at htin
    obtain ⟨part, hpart, hmk⟩ := htin
    have hsub := (splitOn_parts '\n' (pyJoinNl l).data part hpart).2
    have hws : ∀ c ∈ t.data, isPySpace c := by
      intro c hc
      rw [← hmk] at hc
      exact hallws c (hsub c hc)
    have hfix : pyStripList t.data = t.data := by
      rw [← data_pyStrip, hgt.2.1]
    have htd : t.data = [] := by
      rw [← hfix]
      exact (pyStripList_eq_nil_iff _).mpr hws
    exact hgt.1 ((string_eq_empty_iff t).mpr htd)
  unfold parse_mappings
  rw [if_neg (by simp [hguard])]
  rw [hsplit]
  have hmap : l.map pyStrip = l := by
    conv_rhs => rw [← List.map_id l]
    apply List.map_congr_left
    intro t ht
    exact (hg t ht).2.1
  rw [hmap]
  have hfil : l.filter (fun m => !(m == "")) = l := by
    rw [List.filter_eq_self]
    intro t ht
    simpa using (hg t ht).1
  rw [hfil]

theorem mem_parse_pyJoinNl_sorted (l : List String) (hne : l ≠ [])
    (hg : ∀ t ∈ l, goodTag t) (t : String) :
    t ∈ parse_mappings (pyJoinNl (pySorted l)) ↔ t ∈ l := by
  rw [parse_pyJoinNl (pySorted l) (pySorted_ne_nil hne)
    (fun u hu => hg u ((mem_pySorted u l).mp hu)), List.mem_dedup, mem_pySorted]

/-! ## Evaluation of `processRow`, case by case -/

theorem processRow_spec (ml : MasterLookup) (ci mi : Nat) (row : List String) :
    (row.length ≤ ci ∧ processRow ml ci mi row = (row, .tooShort)) ∨
    (ci < row.length ∧ pyStrip (row.getD ci "") = "" ∧
      processRow ml ci mi row = (row, .blankKey)) ∨
    (ci < row.length ∧ pyStrip (row.getD ci "") ≠ "" ∧
      lookupFind ml (capKeyOf ci row) = none ∧
      processRow ml ci mi row = (row, .unmatched (capKeyOf ci row))) ∨
    (∃ master, ci < row.length ∧ pyStrip (row.getD ci "") ≠ "" ∧
      lookupFind ml (capKeyOf ci row) = some master ∧
      missingTags master (currentTags mi row) = [] ∧
      processRow ml ci mi row = (row, .inSync)) ∨
    (∃ master, ci < row.length ∧ pyStrip (row.getD ci "") ≠ "" ∧
      lookupFind ml (capKeyOf ci row) = some master ∧
      missingTags master (currentTags mi row) ≠ [] ∧
      processRow ml ci mi row =
        (updatedRow mi row
          (pyJoinNl (pySorted (currentTags mi row ++
            missingTags master (currentTags mi row)))),
         .updated (missingTags master (currentTags mi row)).length)) := by
  by_cases h1 : row.length ≤ ci
  · exact Or.inl ⟨h1, by simp only [processRow]; rw [if_pos h1]⟩
  have h1' : ci < row.length := by omega
  by_cases h2 : pyStrip (row.getD ci "") = ""
  · refine Or.inr (Or.inl ⟨h1', h2, ?_⟩)
    simp only [processRow]
    rw [if_neg h1, if_pos (by simpa using h2)]
  cases hl : lookupFind ml (capKeyOf ci row) with
  | none =>
    refine Or.inr (Or.inr (Or.inl ⟨h1', h2, rfl, ?_⟩))
    have hl' : lookupFind ml (normalize_capability_name (pyStrip (row.getD ci ""))) = none := hl
    simp only [processRow]
    rw [if_neg h1, if_neg (by simpa using h2), hl']
    rfl
  | some master =>
    have hl' : lookupFind ml (normalize_capability_name (pyStrip (row.getD ci ""))) =
        some master := hl
    by_cases hm : missingTags master (currentTags mi row) = []
    · refine Or.inr (Or.inr (Or.inr (Or.inl ⟨master, h1', h2, rfl, hm, ?_⟩)))
      have hm' : (master.filter
          (fun t => decide (t ∉ parse_mappings (row.getD mi "")))).isEmpty = true := by
        rw [List.isEmpty_iff]
        exact hm
      simp only [processRow]
      rw [if_neg h1, if_neg (by simpa using h2), hl']
      dsimp only
      rw [if_pos hm']
    · refine Or.inr (Or.inr (Or.inr (Or.inr
        ⟨master, h1', h2, rfl, hm, ?_⟩)))
      have hm' : ¬ (master.filter
          (fun t => decide (t ∉ parse_mappings (row.getD mi "")))).isEmpty = true := by
        rw [List.isEmpty_iff]
        exact hm
      simp only [processRow]
      rw [if_neg h1, if_neg (by simpa using h2), hl']
      dsimp only
      rw [if_neg hm']
      rfl

theorem processRow_unchanged (ml : MasterLookup) (ci mi : Nat) (row : List String)
    (h : updDelta (processRow ml ci mi row).2 = 0) :
    (processRow ml ci mi row).1 = row := by
  rcases processRow_spec ml ci mi row with ⟨_, hp⟩ | ⟨_, _, hp⟩ | ⟨_, _, _, hp⟩ |
      ⟨m, _, _, _, _, hp⟩ | ⟨m, _, _, _, _, hp⟩ <;> rw [hp] at h ⊢
  all_goals first
  | rfl
  | simp [updDelta] at h

theorem addDelta_eq_zero {o : RowOutcome} (h : updDelta o = 0) : addDelta o = 0 := by
  cases o <;> simp [updDelta, addDelta] at h ⊢

theorem foldl_stepRow_rowsRev (ml : MasterLookup) (ci mi : Nat) :
    ∀ (rows : List (List String)) (st : ReconState),
      (rows.foldl (stepRow ml ci mi) st).rowsRev
        = (rows.map (fun r => (processRow ml ci mi r).1)).reverse ++ st.rowsRev := by
  intro rows
  induction rows with
  | nil => intro st; simp
  | cons r rs ih =>
    intro st
    rw [List.foldl_cons, ih]
    simp [stepRow]

theorem foldl_stepRow_updated (ml : MasterLookup) (ci mi : Nat) :
    ∀ (rows : List (List String)) (st : ReconState),
      (rows.foldl (stepRow ml ci mi) st).updated
        = st.updated + (rows.map (fun r => updDelta (processRow ml ci mi r).2)).sum := by
  intro rows
  induction rows with
  | nil => intro st; simp
  | cons r rs ih =>
    intro st
    rw [List.foldl_cons, ih]
    simp [stepRow]
    omega

theorem foldl_stepRow_added (ml : MasterLookup) (ci mi : Nat) :
    ∀ (rows : List (List String)) (st : ReconState),
      (rows.foldl (stepRow ml ci mi) st).added
        = st.added + (rows.map (fun r => addDelta (processRow ml ci mi r).2)).sum := by
  intro rows
  induction rows with
  | nil => intro st; simp
  | cons r rs ih =>
    intro st
    rw [List.foldl_cons, ih]
    simp [stepRow]
    omega

theorem foldl_stepRow_unmatched (ml : MasterLookup) (ci mi : Nat) :
    ∀ (rows : List (List String)) (st : ReconState),
      (rows.foldl (stepRow ml ci mi) st).unmatched
        = (rows.filterMap (rowUnmatchedKey ml ci mi)).foldl insertNew st.unmatched := by
  intro rows
  induction rows with
  | nil => intro st; simp
  | cons r rs ih =>
    intro st
    rw [List.foldl_cons, ih]
    cases ho : (processRow ml ci mi r).2 <;>
      simp [stepRow, rowUnmatchedKey, ho, List.filterMap_cons]

theorem reconcile_rows (ml : MasterLookup) (ci mi : Nat) (targets : List (List String)) :
    (reconcile ml ci mi targets).rows
      = targets.map (fun r => (processRow ml ci mi r).1) := by
  show (targets.foldl (stepRow ml ci mi) ⟨[], 0, 0, []⟩).rowsRev.reverse
      = targets.map (fun r => (processRow ml ci mi r).1)
  rw [foldl_stepRow_rowsRev]
  simp

theorem reconcile_updated (ml : MasterLookup) (ci mi : Nat) (targets : List (List String)) :
    (reconcile ml ci mi targets).updated
      = (targets.map (fun r => updDelta (processRow ml ci mi r).2)).sum := by
  have h := foldl_stepRow_updated ml ci mi targets ⟨[], 0, 0, []⟩
  simpa [reconcile] using h

theorem reconcile_added (ml : MasterLookup) (ci mi : Nat) (targets : List (List String)) :
    (reconcile ml ci mi targets).added
      = (targets.map (fun r => addDelta (processRow ml ci mi r).2)).sum := by
  have h := foldl_stepRow_added ml ci mi targets ⟨[], 0, 0, []⟩
  simpa [reconcile] using h

theorem reconcile_unmatched (ml : MasterLookup) (ci mi : Nat) (targets : List (List String)) :
    (reconcile ml ci mi targets).unmatched
      = firstOccurrences (targets.filterMap (rowUnmatchedKey ml ci mi)) := by
  have h := foldl_stepRow_unmatched ml ci mi targets ⟨[], 0, 0, []⟩
  simpa [reconcile, firstOccurrences] using h

/-! ## The unmatched report -/

theorem mem_insertNew {l : List String} {k a : String} :
    a ∈ insertNew l k ↔ a ∈ l ∨ a = k := by
  unfold insertNew
  by_cases h : k ∈ l
  · rw [if_pos h]
    constructor
    · exact Or.inl
    · rintro (h1 | rfl)
      · exact h1
      · exact h
  · rw [if_neg h]
    simp

theorem nodup_insertNew {l : List String} {k : String} (h : l.Nodup) :
    (insertNew l k).Nodup := by
  unfold insertNew
  by_cases hk : k ∈ l
  · rwa [if_pos hk]
  · rw [if_neg hk]
    rw [List.nodup_append]
    refine ⟨h, List.nodup_singleton k, ?_⟩
    intro a ha hk'
    rw [List.mem_singleton] at hk'
    exact hk (hk' ▸ ha)

theorem foldl_insertNew_nodup :
    ∀ (ks init : List String), init.Nodup → (ks.foldl insertNew init).Nodup := by
  intro ks
  induction ks with
  | nil => intro init h; exact h
  | cons k ks ih =>
    intro init h
    rw [List.foldl_cons]
    exact ih _ (nodup_insertNew h)

theorem mem_foldl_insertNew :
    ∀ (ks init : List String) (a : String),
      a ∈ ks.foldl insertNew init ↔ a ∈ init ∨ a ∈ ks := by
  intro ks
  induction ks with
  | nil => intro init a; simp
  | cons k ks ih =>
    intro init a
    rw [List.foldl_cons, ih, mem_insertNew]
    simp
    tauto

theorem firstOccurrences_nodup (ks : List String) : (firstOccurrences ks).Nodup :=
  foldl_insertNew_nodup ks [] List.nodup_nil

theorem mem_firstOccurrences (ks : List String) (a : String) :
    a ∈ firstOccurrences ks ↔ a ∈ ks := by
  rw [firstOccurrences, mem_foldl_insertNew]
  simp

/-- C7: the unmatched report of one reconciliation pass is exactly the list
of unmatched keys in order of first appearance, without duplicates (each key
counted once no matter how many rows share it); a row is unmatched exactly
when its normalized key is absent from the master lookup; unmatched rows are
returned unchanged; and a row whose identity cell is blank is skipped
entirely — it is returned unchanged and contributes nothing to the report. -/
theorem c7_unmatched_tracking (ml : MasterLookup) (ci mi : Nat)
    (targets : List (List String)) :
    (reconcile ml ci mi targets).unmatched
        = firstOccurrences (targets.filterMap (rowUnmatchedKey ml ci mi)) ∧
    (reconcile ml ci mi targets).unmatched.Nodup ∧
    (∀ k, k ∈ (reconcile ml ci mi targets).unmatched ↔
      ∃ row ∈ targets, rowUnmatchedKey ml ci mi row = some k) ∧
    (∀ row k, rowUnmatchedKey ml ci mi row = some k ↔
      (ci < row.length ∧ pyStrip (row.getD ci "") ≠ "" ∧
        k = capKeyOf ci row ∧ lookupFind ml k = none)) ∧
    (∀ row k, rowUnmatchedKey ml ci mi row = some k →
      (processRow ml ci mi row).1 = row) ∧
    (∀ row, ci < row.length → pyStrip (row.getD ci "") = "" →
      rowUnmatchedKey ml ci mi row = none ∧ (processRow ml ci mi row).1 = row) := by
  have hchar : ∀ row k, rowUnmatchedKey ml ci mi row = some k ↔
      (ci < row.length ∧ pyStrip (row.getD ci "") ≠ "" ∧
        k = capKeyOf ci row ∧ lookupFind ml k = none) := by
    intro row k
    rcases processRow_spec ml ci mi row with ⟨h1, hp⟩ | ⟨h1, h2, hp⟩ | ⟨h1, h2, hl, hp⟩ |
        ⟨m, h1, h2, hl, hm, hp⟩ | ⟨m, h1, h2, hl, hm, hp⟩
    · simp only [rowUnmatchedKey, hp]
      constructor
      · intro h; cases h
      · rintro ⟨h1', _⟩; omega
    · simp only [rowUnmatchedKey, hp]
      constructor
      · intro h; cases h
      · rintro ⟨_, h2', _⟩; exact absurd h2 h2'
    · simp only [rowUnmatchedKey, hp]
      constructor
      · rintro h
        injection h with h
        exact ⟨h1, h2, h.symm, h ▸ hl⟩
      · rintro ⟨_, _, rfl, _⟩; rfl
    · simp only [rowUnmatchedKey, hp]
      constructor
      · intro h; cases h
      · rintro ⟨_, _, rfl, hnone⟩
        rw [hnone] at hl
        cases hl
    · simp only [rowUnmatchedKey, hp]
      constructor
      · intro h; cases h
      · rintro ⟨_, _, rfl, hnone⟩
        rw [hnone] at hl
        cases hl
  refine ⟨reconcile_unmatched ml ci mi targets, ?_, ?_, hchar, ?_, ?_⟩
  · rw [reconcile_unmatched]
    exact firstOccurrences_nodup _
  · intro k
    rw [reconcile_unmatched, mem_firstOccurrences, List.mem_filterMap]
  · intro row k hk
    rw [hchar row k] at hk
    obtain ⟨hk1, hk2, rfl, hk4⟩ := hk
    rcases processRow_spec ml ci mi row with ⟨_, hp⟩ | ⟨_, _, hp⟩ | ⟨_, _, _, hp⟩ |
        ⟨m, _, _, _, _, hp⟩ | ⟨m, _, _, hl, _, hp⟩
    · rw [hp]
    · rw [hp]
    · rw [hp]
    · rw [hp]
    · rw [hk4] at hl
      cases hl
  · intro row h1 h2
    rcases processRow_spec ml ci mi row with ⟨h1', hp⟩ | ⟨_, _, hp⟩ | ⟨_, h2', hp⟩ |
        ⟨m, _, h2', hl, hm, hp⟩ | ⟨m, _, h2', hl, hm, hp⟩
    · omega
    · exact ⟨by simp [rowUnmatchedKey, hp], by rw [hp]⟩
    · exact absurd h2 h2'
    · exact absurd h2 h2'
    · exact absurd h2 h2'

/-! ## The master lookup as a union of row contributions (C8) -/

theorem mem_setUnion {a b : List String} {t : String} :
    t ∈ setUnion a b ↔ t ∈ a ∨ t ∈ b := by
  unfold setUnion
  rw [List.mem_append, List.mem_filter]
  constructor
  · rintro (h | ⟨h, _⟩)
    exacts [Or.inl h, Or.inr h]
  · rintro (h | h)
    · exact Or.inl h
    · by_cases ha : t ∈ a
      · exact Or.inl ha
      · exact Or.inr ⟨h, by simpa using ha⟩

theorem lookupFind_lookupUnion_self (ml : MasterLookup) (k : String) (w : List String) :
    lookupFind (lookupUnion ml k w) k = (lookupFind ml k).map (fun v => setUnion v w) := by
  induction ml with
  | nil => rfl
  | cons p ml ih =>
    unfold lookupUnion at ih ⊢
    rw [List.map_cons]
    by_cases hk : p.1 = k
    · rw [if_pos (by simpa using hk)]
      unfold lookupFind
      rw [List.find?_cons_of_pos _ (by simpa using hk),
        List.find?_cons_of_pos _ (by simpa using hk)]
      rfl
    · rw [if_neg (by simpa using hk)]
      unfold lookupFind
      rw [List.find?_cons_of_neg _ (by simpa using hk),
        List.find?_cons_of_neg _ (by simpa using hk)]
      exact ih

theorem lookupFind_lookupUnion_ne (ml : MasterLookup) (k2 k : String) (w : List String)
    (hne : k2 ≠ k) :
    lookupFind (lookupUnion ml k2 w) k = lookupFind ml k := by
  induction ml with
  | nil => rfl
  | cons p ml ih =>
    unfold lookupUnion at ih ⊢
    rw [List.map_cons]
    by_cases h2 : p.1 = k2
    · rw [if_pos (by simpa using h2)]
      unfold lookupFind
      rw [List.find?_cons_of_neg _ (by simp; exact h2 ▸ hne),
        List.find?_cons_of_neg _ (by simp [h2]; exact hne)]
      exact ih
    · rw [if_neg (by simpa using h2)]
      by_cases hk : p.1 = k
      · unfold lookupFind
        rw [List.find?_cons_of_pos _ (by simpa using hk),
          List.find?_cons_of_pos _ (by simpa using hk)]
      · unfold lookupFind
        rw [List.find?_cons_of_neg _ (by simpa using hk),
          List.find?_cons_of_neg _ (by simpa using hk)]
        exact ih

theorem lookupFind_append_single (ml : MasterLookup) (k2 k : String) (v : List String) :
    lookupFind (ml ++ [(k2, v)]) k =
      match lookupFind ml k with
      | some w => some w
      | none => if k2 = k then some v else none := by
  unfold lookupFind
  rw [List.find?_append]
  cases h : ml.find? (fun p => p.1 == k) with
  | some w => simp [Option.or]
  | none =>
    by_cases hk : k2 = k
    · simp [Option.or, List.find?_cons, hk]
    · simp [Option.or, List.find?_cons, hk]

theorem build_lookup_mem_aux (ci mi : Nat) (k : String) (hk : k ≠ "") :
    ∀ (rows : List (List String)) (acc : MasterLookup) (t : String),
      (∃ v, lookupFind (rows.foldl (buildStep ci mi) acc) k = some v ∧ t ∈ v) ↔
        ((∃ v, lookupFind acc k = some v ∧ t ∈ v) ∨
          ∃ row, row ∈ rows ∧ ci < row.length ∧
            normalize_capability_name (row.getD ci "") = k ∧
            t ∈ parse_mappings (row.getD mi "")) := by
  intro rows
  induction rows with
  | nil =>
    intro acc t
    simp
  | cons row rows ih =>
    intro acc t
    rw [List.foldl_cons, ih]
    have hstep : (∃ v, lookupFind (buildStep ci mi acc row) k = some v ∧ t ∈ v) ↔
        ((∃ v, lookupFind acc k = some v ∧ t ∈ v) ∨
          (ci < row.length ∧ normalize_capability_name (row.getD ci "") = k ∧
            t ∈ parse_mappings (row.getD mi ""))) := by
      by_cases h1 : ci < row.length
      · by_cases h2 : normalize_capability_name (row.getD ci "") = ""
        · have hb : buildStep ci mi acc row = acc := by
            unfold buildStep
            rw [if_pos h1, if_pos (by simpa using h2)]
          rw [hb]
          constructor
          · exact Or.inl
          · rintro (h | ⟨_, hkk, _⟩)
            · exact h
            · exact absurd (hkk.symm.trans h2) hk
        · cases hs : lookupFind acc (normalize_capability_name (row.getD ci "")) with
          | some v0 =>
            have hb : buildStep ci mi acc row =
                lookupUnion acc (normalize_capability_name (row.getD ci ""))
                  (parse_mappings (row.getD mi "")) := by
              unfold buildStep
              rw [if_pos h1, if_neg (by simpa using h2), hs]
              rfl
            rw [hb]
            by_cases hck : normalize_capability_name (row.getD ci "") = k
            · rw [hck] at hs ⊢
              rw [lookupFind_lookupUnion_self, hs]
              constructor
              · rintro ⟨v, hv, htv⟩
                injection hv with hv
                rw [← hv] at htv
                rcases mem_setUnion.mp htv with h | h
                · exact Or.inl ⟨v0, rfl, h⟩
                · exact Or.inr ⟨h1, rfl, h⟩
              · rintro (⟨v, hv, htv⟩ | ⟨_, _, htv⟩)
                · injection hv with hv
                  exact ⟨_, rfl, mem_setUnion.mpr (Or.inl (hv ▸ htv))⟩
                · exact ⟨_, rfl, mem_setUnion.mpr (Or.inr htv)⟩
            · rw [lookupFind_lookupUnion_ne _ _ _ _ hck]
              constructor
              · exact Or.inl
              · rintro (h | ⟨_, hkk, _⟩)
                · exact h
                · exact absurd hkk hck
          | none =>
            have hb : buildStep ci mi acc row =
                acc ++ [(normalize_capability_name (row.getD ci ""),
                  parse_mappings (row.getD mi ""))] := by
              unfold buildStep
              rw [if_pos h1, if_neg (by simpa using h2), hs]
              rfl
            rw [hb, lookupFind_append_single]
            by_cases hck : normalize_capability_name (row.getD ci "") = k
            · rw [hck] at hs
              rw [hs, if_pos hck]
              constructor
              · rintro ⟨v, hv, htv⟩
                have hv' : some (parse_mappings (row.getD mi "")) = some v := hv
                injection hv' with hv'
                exact Or.inr ⟨h1, hck, hv' ▸ htv⟩
              · rintro (⟨v, hv, _⟩ | ⟨_, _, htv⟩)
                · cases hv
                · exact ⟨_, rfl, htv⟩
            · cases hs2 : lookupFind acc k with
              | some w =>
                constructor
                · rintro ⟨v, hv, htv⟩
                  have hv' : some w = some v := hv
                  injection hv' with hv'
                  exact Or.inl ⟨w, rfl, hv' ▸ htv⟩
                · rintro (⟨v, hv, htv⟩ | ⟨_, hkk, _⟩)
                  · injection hv with hv
                    exact ⟨w, rfl, hv ▸ htv⟩
                  · exact absurd hkk hck
              | none =>
                rw [if_neg hck]
                constructor
                · rintro ⟨v, hv, _⟩
                  have hv' : (none : Option (List String)) = some v := hv
                  cases hv'
                · rintro (⟨v, hv, _⟩ | ⟨_, hkk, _⟩)
                  · cases hv
                  · exact absurd hkk hck
      · have hb : buildStep ci mi acc row = acc := by
          unfold buildStep
          rw [if_neg h1]
        rw [hb]
        constructor
        · exact Or.inl
        · rintro (h | ⟨h1', _⟩)
          · exact h
          · exact absurd h1' h1
    rw [hstep]
    constructor
    · rintro ((h | hrow) | ⟨r, hr, hc⟩)
      · exact Or.inl h
      · exact Or.inr ⟨row, List.mem_cons_self _ _, hrow⟩
      · exact Or.inr ⟨r, List.mem_cons_of_mem _ hr, hc⟩
    · rintro (h | ⟨r, hr, hc⟩)
      · exact Or.inl (Or.inl h)
      · rcases List.mem_cons.mp hr with rfl | hr'
        · exact Or.inl (Or.inr hc)
        · exact Or.inr ⟨r, hr', hc⟩

theorem goodLookup_buildStep (ci mi : Nat) (acc : MasterLookup) (row : List String)
    (h : goodLookup acc) : goodLookup (buildStep ci mi acc row) := by
  unfold buildStep
  by_cases h1 : ci < row.length
  · rw [if_pos h1]
    by_cases h2 : normalize_capability_name (row.getD ci "") = ""
    · rw [if_pos (by simpa using h2)]
      exact h
    · rw [if_neg (by simpa using h2)]
      by_cases h3 : (lookupFind acc (normalize_capability_name (row.getD ci ""))).isSome
      · rw [if_pos h3]
        intro p hp t ht
        unfold lookupUnion at hp
        rw [List.mem_map] at hp
        obtain ⟨q, hq, rfl⟩ := hp
        by_cases hqk : (q.1 == normalize_capability_name (row.getD ci "")) = true
        · rw [if_pos hqk] at ht
          rcases mem_setUnion.mp ht with h' | h'
          · exact h q hq t h'
          · exact parse_mappings_good _ t h'
        · rw [if_neg hqk] at ht
          exact h q hq t ht
      · rw [if_neg h3]
        intro p hp t ht
        rcases List.mem_append.mp hp with hp' | hp'
        · exact h p hp' t ht
        · rcases List.mem_singleton.mp hp' with rfl
          exact parse_mappings_good _ t ht
  · rw [if_neg h1]
    exact h

theorem build_master_lookup_good (rows : List (List String)) (ci mi : Nat) :
    goodLookup (build_master_lookup rows ci mi) := by
  unfold build_master_lookup
  have haux : ∀ (rs : List (List String)) (acc : MasterLookup), goodLookup acc →
      goodLookup (rs.foldl (buildStep ci mi) acc) := by
    intro rs
    induction rs with
    | nil => intro acc h; exact h
    | cons r rs ih =>
      intro acc h
      rw [List.foldl_cons]
      exact ih _ (goodLookup_buildStep ci mi acc r h)
  exact haux rows [] (by intro p hp; cases hp)

theorem lookupFind_good {ml : MasterLookup} (h : goodLookup ml) {k : String}
    {v : List String} (hv : lookupFind ml k = some v) : ∀ t ∈ v, goodTag t := by
  unfold lookupFind at hv
  cases hf : ml.find? (fun p => p.1 == k) with
  | none => rw [hf] at hv; cases hv
  | some p =>
    rw [hf] at hv
    injection hv with hv
    have hp := List.mem_of_find?_eq_some hf
    exact hv ▸ h p hp

/-- C8: the master lookup maps each nonblank normalized key to the union of
the parsed tag sets of all master rows bearing that key — a tag is stored
under the key exactly when some contributing row carries it — and, in
particular, two rows with key `AC-1` and tag sets `X` and `Y` yield the
lookup value `X, Y`. -/
theorem c8_duplicate_keys_union (rows : List (List String)) (ci mi : Nat) (k : String)
    (hk : k ≠ "") :
    (∀ t, (∃ v, lookupFind (build_master_lookup rows ci mi) k = some v ∧ t ∈ v) ↔
      ∃ row, row ∈ rows ∧ ci < row.length ∧
        normalize_capability_name (row.getD ci "") = k ∧
        t ∈ parse_mappings (row.getD mi "")) ∧
    lookupFind (build_master_lookup [["AC-1", "X"], ["AC-1", "Y"]] 0 1) "AC-1"
      = some ["X", "Y"] := by
  constructor
  · intro t
    unfold build_master_lookup
    rw [build_lookup_mem_aux ci mi k hk rows [] t]
    constructor
    · rintro (⟨v, hv, _⟩ | h)
      · cases hv
      · exact h
    · exact Or.inr
  · decide

/-- Witness for `c8_duplicate_keys_union` at a concrete master collection. -/
theorem c8_duplicate_keys_union_witness :
    (∃ v, lookupFind (build_master_lookup [["Z", "A"]] 0 1) "Z" = some v ∧ "A" ∈ v) ∧
    lookupFind (build_master_lookup [["AC-1", "X"], ["AC-1", "Y"]] 0 1) "AC-1"
      = some ["X", "Y"] :=
  ⟨((c8_duplicate_keys_union [["Z", "A"]] 0 1 "Z" (by decide)).1 "A").mpr
      ⟨["Z", "A"], by decide, by decide, by decide, by decide⟩,
    (c8_duplicate_keys_union [["Z", "A"]] 0 1 "Z" (by decide)).2⟩

/-! ## The update branch in detail (C6, C5) -/

theorem updatedRow_length (mi : Nat) (row : List String) (cell : String) :
    (updatedRow mi row cell).length = max row.length (mi + 1) := by
  unfold updatedRow
  rw [List.length_set, List.length_append, List.length_replicate]
  omega

theorem updatedRow_getD_mi (mi : Nat) (row : List String) (cell : String) :
    (updatedRow mi row cell).getD mi "" = cell := by
  unfold updatedRow
  rw [List.getD_eq_getElem?_getD,
    List.getElem?_set_self (by rw [List.length_append, List.length_replicate]; omega)]
  rfl

theorem updatedRow_getElem?_ne (mi : Nat) (row : List String) (cell : String)
    (j : Nat) (hj : j ≠ mi) (hlt : j < row.length) :
    (updatedRow mi row cell)[j]? = row[j]? := by
  unfold updatedRow
  rw [List.getElem?_set_ne (by omega), List.getElem?_append_left hlt]

theorem goodTag_append {ml : MasterLookup} (hgood : goodLookup ml) {k : String}
    {m : List String} (hl : lookupFind ml k = some m) (mi : Nat) (row : List String) :
    ∀ t ∈ currentTags mi row ++ missingTags m (currentTags mi row), goodTag t := by
  intro t ht
  rcases List.mem_append.mp ht with h | h
  · exact parse_mappings_good _ t h
  · exact lookupFind_good hgood hl t (List.mem_of_mem_filter h)

theorem updated_cell_mem {ml : MasterLookup} (hgood : goodLookup ml) {k : String}
    {m : List String} (hl : lookupFind ml k = some m) (mi : Nat) (row : List String)
    (hm : missingTags m (currentTags mi row) ≠ []) (t : String) :
    t ∈ parse_mappings (pyJoinNl (pySorted
        (currentTags mi row ++ missingTags m (currentTags mi row)))) ↔
      t ∈ currentTags mi row ++ missingTags m (currentTags mi row) := by
  apply mem_parse_pyJoinNl_sorted
  · intro hcon
    exact hm (List.append_eq_nil.mp hcon).2
  · exact goodTag_append hgood hl mi row

/-- C6: the pass is additive and non-destructive per row — every tag parsed
from the input row's mappings cell is parsed from the output row's cell as
well; any row the pass does not update (no master match, blank or absent
key, or nothing missing) is returned unchanged; and every original cell
other than the mappings cell keeps its value. -/
theorem c6_additive_only (masterRows : List (List String)) (mci mmi ci mi : Nat)
    (row : List String) :
    (∀ t, t ∈ parse_mappings (row.getD mi "") →
      t ∈ parse_mappings
        ((processRow (build_master_lookup masterRows mci mmi) ci mi row).1.getD mi "")) ∧
    (updDelta (processRow (build_master_lookup masterRows mci mmi) ci mi row).2 = 0 →
      (processRow (build_master_lookup masterRows mci mmi) ci mi row).1 = row) ∧
    (∀ j, j ≠ mi → j < row.length →
      (processRow (build_master_lookup masterRows mci mmi) ci mi row).1[j]? = row[j]?) := by
  have hgood : goodLookup (build_master_lookup masterRows mci mmi) :=
    build_master_lookup_good masterRows mci mmi
  rcases processRow_spec (build_master_lookup masterRows mci mmi) ci mi row with
    ⟨_, hp⟩ | ⟨_, _, hp⟩ | ⟨_, _, _, hp⟩ | ⟨m, _, _, _, _, hp⟩ | ⟨m, h1, h2, hl, hm, hp⟩
  · rw [hp]; exact ⟨fun t ht => ht, fun _ => rfl, fun j _ _ => rfl⟩
  · rw [hp]; exact ⟨fun t ht => ht, fun _ => rfl, fun j _ _ => rfl⟩
  · rw [hp]; exact ⟨fun t ht => ht, fun _ => rfl, fun j _ _ => rfl⟩
  · rw [hp]; exact ⟨fun t ht => ht, fun _ => rfl, fun j _ _ => rfl⟩
  · rw [hp]
    refine ⟨?_, ?_, ?_⟩
    · intro t ht
      show t ∈ parse_mappings ((updatedRow mi row
        (pyJoinNl (pySorted (currentTags mi row ++
          missingTags m (currentTags mi row))))).getD mi "")
      rw [updatedRow_getD_mi]
      exact (updated_cell_mem hgood hl mi row hm t).mpr (List.mem_append.mpr (Or.inl ht))
    · intro hupd
      simp [updDelta] at hupd
    · intro j hj hlt
      show (updatedRow mi row
        (pyJoinNl (pySorted (currentTags mi row ++
          missingTags m (currentTags mi row)))))[j]? = row[j]?
      exact updatedRow_getElem?_ne _ _ _ j hj hlt

/-- Witness for `c6_additive_only` at the concrete scenario row. -/
theorem c6_additive_only_witness :
    "AC-1" ∈ parse_mappings
        ((processRow (build_master_lookup [["Access Control:", "AC-1\nAC-2"]] 0 1) 0 1
          ["Access Control", "AC-1"]).1.getD 1 "") ∧
    (processRow (build_master_lookup [["Access Control:", "AC-1\nAC-2"]] 0 1) 0 1
        ["Access Control", "AC-1"]).1[0]? =
      (["Access Control", "AC-1"] : List String)[0]? :=
  ⟨(c6_additive_only [["Access Control:", "AC-1\nAC-2"]] 0 1 0 1
      ["Access Control", "AC-1"]).1 "AC-1" (by decide),
    (c6_additive_only [["Access Control:", "AC-1\nAC-2"]] 0 1 0 1
      ["Access Control", "AC-1"]).2.2 0 (by decide) (by decide)⟩

theorem processRow_fixed (ml : MasterLookup) (ci mi : Nat) (hne : ci ≠ mi)
    (hgood : goodLookup ml) (row : List String) :
    (processRow ml ci mi (processRow ml ci mi row).1).1 = (processRow ml ci mi row).1 ∧
    updDelta (processRow ml ci mi (processRow ml ci mi row).1).2 = 0 := by
  rcases processRow_spec ml ci mi row with ⟨h1, hp⟩ | ⟨h1, h2, hp⟩ | ⟨h1, h2, hl, hp⟩ |
      ⟨m, h1, h2, hl, hm, hp⟩ | ⟨m, h1, h2, hl, hm, hp⟩
  · have hfst : (processRow ml ci mi row).1 = row := by rw [hp]
    exact ⟨by rw [hfst, hp], by rw [hfst, hp]; rfl⟩
  · have hfst : (processRow ml ci mi row).1 = row := by rw [hp]
    exact ⟨by rw [hfst, hp], by rw [hfst, hp]; rfl⟩
  · have hfst : (processRow ml ci mi row).1 = row := by rw [hp]
    exact ⟨by rw [hfst, hp], by rw [hfst, hp]; rfl⟩
  · have hfst : (processRow ml ci mi row).1 = row := by rw [hp]
    exact ⟨by rw [hfst, hp], by rw [hfst, hp]; rfl⟩
  · set cell := pyJoinNl (pySorted (currentTags mi row ++
      missingTags m (currentTags mi row))) with hcell
    have hfst : (processRow ml ci mi row).1 = updatedRow mi row cell := by rw [hp]
    rw [hfst]
    have hlen : ¬ (updatedRow mi row cell).length ≤ ci := by
      rw [updatedRow_length]
      omega
    have hgd : (updatedRow mi row cell).getD ci "" = row.getD ci "" := by
      rw [List.getD_eq_getElem?_getD, List.getD_eq_getElem?_getD,
        updatedRow_getElem?_ne mi row cell ci hne h1]
    have hcur : ∀ t, t ∈ currentTags mi (updatedRow mi row cell) ↔
        t ∈ currentTags mi row ++ missingTags m (currentTags mi row) := by
      intro t
      show t ∈ parse_mappings ((updatedRow mi row cell).getD mi "") ↔ _
      rw [updatedRow_getD_mi, hcell]
      exact updated_cell_mem hgood hl mi row hm t
    have hmiss : missingTags m (currentTags mi (updatedRow mi row cell)) = [] := by
      unfold missingTags
      rw [List.filter_eq_nil_iff]
      intro t ht
      simp only [decide_eq_true_eq, not_not]
      refine (hcur t).mpr ?_
      by_cases hc : t ∈ currentTags mi row
      · exact List.mem_append.mpr (Or.inl hc)
      · refine List.mem_append.mpr (Or.inr ?_)
        unfold missingTags
        rw [List.mem_filter]
        exact ⟨ht, by simpa using hc⟩
    rcases processRow_spec ml ci mi (updatedRow mi row cell) with ⟨h1', hp'⟩ |
        ⟨_, h2', hp'⟩ | ⟨_, _, hl', hp'⟩ | ⟨m', _, _, hl', hm', hp'⟩ |
        ⟨m', _, _, hl', hm', hp'⟩
    · exact absurd h1' hlen
    · rw [hgd] at h2'
      exact absurd h2' h2
    · have hcontr : some m = (none : Option (List String)) := by
        rw [← hl, ← hl']
        unfold capKeyOf
        rw [hgd]
      cases hcontr
    · exact ⟨by rw [hp'], by rw [hp']; rfl⟩
    · have hmm2 : some m = some m' := by
        rw [← hl, ← hl']
        unfold capKeyOf
        rw [hgd]
      injection hmm2 with hmm2
      rw [← hmm2] at hm'
      exact absurd hmiss hm'

/-- C5: reconciliation is idempotent — running the pass again on its own
output with the same master lookup changes no row, updates zero rows and
adds zero tags; the fixed point is reached in one pass. -/
theorem c5_idempotent (masterRows targets : List (List String)) (mci mmi ci mi : Nat)
    (hne : ci ≠ mi) :
    (reconcile (build_master_lookup masterRows mci mmi) ci mi
        (reconcile (build_master_lookup masterRows mci mmi) ci mi targets).rows).rows
      = (reconcile (build_master_lookup masterRows mci mmi) ci mi targets).rows ∧
    (reconcile (build_master_lookup masterRows mci mmi) ci mi
        (reconcile (build_master_lookup masterRows mci mmi) ci mi targets).rows).updated
      = 0 ∧
    (reconcile (build_master_lookup masterRows mci mmi) ci mi
        (reconcile (build_master_lookup masterRows mci mmi) ci mi targets).rows).added
      = 0 := by
  have hgood : goodLookup (build_master_lookup masterRows mci mmi) :=
    build_master_lookup_good masterRows mci mmi
  have hfix := processRow_fixed (build_master_lookup masterRows mci mmi) ci mi hne hgood
  refine ⟨?_, ?_, ?_⟩
  · rw [reconcile_rows, reconcile_rows, List.map_map]
    apply List.map_congr_left
    intro r _
    exact (hfix r).1
  · rw [reconcile_updated, reconcile_rows]
    apply List.sum_eq_zero
    intro x hx
    rw [List.mem_map] at hx
    obtain ⟨r, hr, rfl⟩ := hx
    rw [List.mem_map] at hr
    obtain ⟨r0, _, rfl⟩ := hr
    exact (hfix r0).2
  · rw [reconcile_added, reconcile_rows]
    apply List.sum_eq_zero
    intro x hx
    rw [List.mem_map] at hx
    obtain ⟨r, hr, rfl⟩ := hx
    rw [List.mem_map] at hr
    obtain ⟨r0, _, rfl⟩ := hr
    exact addDelta_eq_zero (hfix r0).2

/-- Witness for `c5_idempotent` at the concrete scenario collections. -/
theorem c5_idempotent_witness :
    (reconcile (build_master_lookup [["Access Control:", "AC-1\nAC-2"]] 0 1) 0 1
        (reconcile (build_master_lookup [["Access Control:", "AC-1\nAC-2"]] 0 1) 0 1
          [["Access Control", "AC-1"]]).rows).updated = 0 :=
  (c5_idempotent [["Access Control:", "AC-1\nAC-2"]] [["Access Control", "AC-1"]]
    0 1 0 1 (by decide)).2.1

/-- Witness for `c7_unmatched_tracking` at a concrete target collection. -/
theorem c7_unmatched_tracking_witness :
    "Z" ∈ (reconcile [] 0 1 [["Z", "B"], ["Z", "C"]]).unmatched ∧
    (processRow [] 0 1 ["Z", "B"]).1 = ["Z", "B"] :=
  ⟨((c7_unmatched_tracking [] 0 1 [["Z", "B"], ["Z", "C"]]).2.2.1 "Z").mpr
      ⟨["Z", "B"], by decide, by decide⟩,
    (c7_unmatched_tracking [] 0 1 [["Z", "B"], ["Z", "C"]]).2.2.2.2.1 ["Z", "B"] "Z"
      (by decide)⟩
